import Mathlib

/-!
Verification of the multi-asset backtesting core of the portfolio_backtest
repository: a shallow embedding of `Backtester.run`,
`PortfolioManager.update_for_symbol` (with `_check_new_entry`,
`_manage_open_position`, `_close_position`, `_calculate_take_profit`) and
`RiskAssessor` (`determine_initial_sl`, `calculate_position_size`).

Modelling conventions:
* prices, sizes and capital are exact rationals (`ℚ`); timestamps are `Nat`;
* a pandas DataFrame of one symbol is a `List Bar` ordered by timestamp, and
  `df.loc[:T]` on its monotonic index is the filter keeping bars with
  timestamp ≤ T;
* the Python dict `open_positions` is an association list in insertion
  order; dict assignment is replace-or-append, `pop` removes the key;
* the `historical_data` dict is a `List (String × List Bar)` in insertion
  order (Python ≥ 3.7 dict iteration order);
* collaborators (indicator engine, strategy) are function fields returning
  `Except String _`: `.error` models a raised exception, and code with no
  try/except around a call propagates the error, exactly as Python does;
* `pd.Index.union` returns the sorted deduplicated union, modelled as
  dedup followed by insertion sort;
* the simulated run additionally returns the ghost trace of
  `(symbol, timestamp, slice)` triples actually passed to
  `update_for_symbol`, used only to state the no-look-ahead property.
-/

/-- One market bar, after column normalisation: the index label (timestamp)
and the columns the core reads: High, Low, Close and ATR_14. -/
structure Bar where
  ts : Nat
  high : ℚ
  low : ℚ
  close : ℚ
  atr : ℚ
  deriving Repr, DecidableEq

/-- `risk_management/position.py`: the `Position` dataclass. The direction
is the Python string, 'LONG' or 'SHORT'. -/
structure Position where
  entry_time : Nat
  entry_price : ℚ
  size : ℚ
  stop_loss : ℚ
  take_profit : ℚ
  direction : String
  deriving Repr, DecidableEq

/-- One record of `trade_history`: `position.__dict__` updated with
`pnl`, `exit_reason`, `exit_time` and `symbol`
(`PortfolioManager._close_position`). -/
structure ClosedTrade where
  entry_time : Nat
  entry_price : ℚ
  size : ℚ
  stop_loss : ℚ
  take_profit : ℚ
  direction : String
  pnl : ℚ
  exit_reason : String
  exit_time : Nat
  symbol : String
  deriving Repr, DecidableEq

/-- The mutable state of `PortfolioManager`: `capital`, `open_positions`
(dict symbol → Position, kept as an association list in insertion order)
and `trade_history`. -/
structure PMState where
  capital : ℚ
  open_positions : List (String × Position)
  trade_history : List ClosedTrade
  deriving Repr, DecidableEq

/-- The constructor parameters of `PortfolioManager` and `RiskAssessor`
that the core logic reads. -/
structure PMConfig where
  risk_per_trade_pct : ℚ
  max_open_positions : Nat
  atr_multiplier_sl : ℚ
  deriving Repr, DecidableEq

/-- The external collaborators, as the PortfolioManager sees them.
`calculate_indicators` is `IndicatorManager.calculate_indicators`;
`check_signal` is `strategy.check_signal` (an arbitrary string result);
`get_take_profit` is the optional `strategy.get_take_profit_price` hook
(present iff `hasattr(strategy, 'get_take_profit_price')`);
`middle_band` reads `candle[strategy.middle_band_col]` when that attribute
is present and truthy. An `.error` result models a raised exception. -/
structure Collaborators where
  calculate_indicators : List Bar → Except String (List Bar)
  check_signal : List Bar → Except String String
  get_take_profit : Option (Bar → String → Except String ℚ)
  middle_band : Option (Bar → Except String ℚ)

/-- Python dict assignment `d[k] = v`: replace in place if the key exists,
else append at the end (insertion order). -/
def dictInsert (m : List (String × Position)) (k : String) (v : Position) :
    List (String × Position) :=
  if m.any (fun q => q.1 == k) then
    m.map (fun q => if q.1 == k then (k, v) else q)
  else m ++ [(k, v)]

/-- `RiskAssessor.determine_initial_sl`: stop below entry for LONG, above
for SHORT, and the non-executable `entry_price` for any other direction. -/
def determine_initial_sl (atr_multiplier_sl : ℚ) (latest_candle : Bar)
    (direction : String) : ℚ :=
  if direction = "LONG" then
    latest_candle.close - latest_candle.atr * atr_multiplier_sl
  else if direction = "SHORT" then
    latest_candle.close + latest_candle.atr * atr_multiplier_sl
  else latest_candle.close

/-- `RiskAssessor.calculate_position_size`: 0 when the risk per unit is
degenerate, else capital-at-risk divided by the risk per unit. -/
def calculate_position_size (portfolio_balance risk_per_trade_pct
    entry_price stop_loss_price : ℚ) : ℚ :=
  let risk_per_unit := |entry_price - stop_loss_price|
  if risk_per_unit ≤ 0 then 0
  else portfolio_balance * risk_per_trade_pct / risk_per_unit

/-- The `except` fallback of `PortfolioManager._calculate_take_profit`:
a conservative 1% take profit. -/
def tp_fallback (candle : Bar) (direction : String) : ℚ :=
  if direction = "LONG" then candle.close * (101 / 100)
  else candle.close * (99 / 100)

/-- The general ATR-based branch of `_calculate_take_profit`
(`candle.get('ATR_14', 0)`). A negative ATR hits the source's undefined
`multiplier` name, whose NameError is caught by the except clause and
yields `tp_fallback`. The final branch is unreachable from
`_check_new_entry`, where direction is always LONG or SHORT (the source
would return None there). -/
def tp_atr (candle : Bar) (direction : String) : ℚ :=
  if direction = "LONG" then
    if candle.atr > 0 then candle.close + candle.atr * 2
    else if candle.atr = 0 then candle.close * (1 + 2 / 100)
    else tp_fallback candle direction
  else if direction = "SHORT" then
    if candle.atr > 0 then candle.close - candle.atr * 2
    else if candle.atr = 0 then candle.close * (1 - 2 / 100)
    else tp_fallback candle direction
  else 0

/-- `PortfolioManager._calculate_take_profit`: strategy hook first, then
the middle-band column, then the ATR projection; every exception inside
the try block falls back to the conservative 1% level. -/
def calculate_take_profit (col : Collaborators) (candle : Bar)
    (direction : String) : ℚ :=
  match col.get_take_profit with
  | some f =>
    match f candle direction with
    | .ok v => v
    | .error _ => tp_fallback candle direction
  | none =>
    match col.middle_band with
    | some g =>
      match g candle with
      | .ok v => v
      | .error _ => tp_fallback candle direction
    | none => tp_atr candle direction

/-- `PortfolioManager._close_position`: pop the position, realise
`pnl = (exit − entry) × size × (±1)`, add it to capital and append the
closed-trade record. The `none` branch is the source's KeyError path,
unreachable from `_manage_open_position`, which only fires for a symbol
present in `open_positions`. -/
def close_position (s : PMState) (symbol : String) (exit_price : ℚ)
    (reason : String) (exit_time : Nat) : PMState :=
  match s.open_positions.find? (fun q => q.1 == symbol) with
  | none => s
  | some q =>
    let position := q.2
    let pnl_multiplier : ℚ := if position.direction = "LONG" then 1 else -1
    let pnl := (exit_price - position.entry_price) * position.size * pnl_multiplier
    { capital := s.capital + pnl
      open_positions := s.open_positions.filter (fun q => ¬ q.1 == symbol)
      trade_history := s.trade_history ++
        [{ entry_time := position.entry_time, entry_price := position.entry_price,
           size := position.size, stop_loss := position.stop_loss,
           take_profit := position.take_profit, direction := position.direction,
           pnl := pnl, exit_reason := reason, exit_time := exit_time,
           symbol := symbol }] }

/-- The exit-price/reason selection of `_manage_open_position`: for LONG,
stop-loss against Low before take-profit against High; for SHORT,
stop-loss against High before take-profit against Low; `none` when no
level fires (the source's `None, None` initialisation). -/
def exitDecision (position : Position) (high_price low_price : ℚ) :
    Option (ℚ × String) :=
  if position.direction = "LONG" then
    if low_price ≤ position.stop_loss then some (position.stop_loss, "STOP_LOSS")
    else if high_price ≥ position.take_profit then some (position.take_profit, "TAKE_PROFIT")
    else none
  else if position.direction = "SHORT" then
    if high_price ≥ position.stop_loss then some (position.stop_loss, "STOP_LOSS")
    else if low_price ≤ position.take_profit then some (position.take_profit, "TAKE_PROFIT")
    else none
  else none

/-- `PortfolioManager._manage_open_position`: look up the position, pick
the exit decision, and close only under the source's truthiness guard
`if exit_price and reason:` — a 0.0 exit price is falsy, so no close
happens. The `none` lookup branch is the source's KeyError path,
unreachable from `update_for_symbol`. -/
def manage_open_position (s : PMState) (latest_candle : Bar)
    (symbol : String) : PMState :=
  match s.open_positions.find? (fun q => q.1 == symbol) with
  | none => s
  | some q =>
    match exitDecision q.2 latest_candle.high latest_candle.low with
    | some (exit_price, reason) =>
      if exit_price ≠ 0 then
        close_position s symbol exit_price reason latest_candle.ts
      else s
    | none => s

/-- `PortfolioManager._check_new_entry`: ask the strategy for a signal
(exceptions propagate — there is no try/except around `check_signal`),
ignore anything but BUY/SELL, price the trade from the last candle
(`df.iloc[-1]`, an IndexError on an empty frame), skip silently when the
computed size is ≤ 0, else open the position. -/
def check_new_entry (cfg : PMConfig) (col : Collaborators) (s : PMState)
    (df : List Bar) (symbol : String) : Except String PMState :=
  match col.check_signal df with
  | .error e => .error e
  | .ok signal =>
    if signal ≠ "BUY" ∧ signal ≠ "SELL" then .ok s
    else
      let direction := if signal = "BUY" then "LONG" else "SHORT"
      match df.getLast? with
      | none => .error "single positional indexer is out-of-bounds"
      | some candle =>
        let entry_price := candle.close
        let take_profit := calculate_take_profit col candle direction
        let stop_loss := determine_initial_sl cfg.atr_multiplier_sl candle direction
        let position_size := calculate_position_size s.capital
          cfg.risk_per_trade_pct entry_price stop_loss
        if position_size ≤ 0 then .ok s
        else .ok { s with
          open_positions := dictInsert s.open_positions symbol
            { entry_time := candle.ts, entry_price := entry_price,
              size := position_size, stop_loss := stop_loss,
              take_profit := take_profit, direction := direction } }

/-- `PortfolioManager.update_for_symbol`: run the indicator engine on the
slice (exceptions propagate), then either manage the existing position for
this symbol, or look for a new entry when below the position ceiling, or
do nothing. -/
def update_for_symbol (cfg : PMConfig) (col : Collaborators) (s : PMState)
    (df_slice : List Bar) (symbol : String) : Except String PMState :=
  match col.calculate_indicators df_slice with
  | .error e => .error e
  | .ok df =>
    if s.open_positions.any (fun q => q.1 == symbol) then
      match df.getLast? with
      | none => .error "single positional indexer is out-of-bounds"
      | some last => .ok (manage_open_position s last symbol)
    else if s.open_positions.length < cfg.max_open_positions then
      check_new_entry cfg col s df symbol
    else .ok s

/-- Initial `PortfolioManager` state: the initial capital, no open
positions, an empty ledger. -/
def initState (initial_capital : ℚ) : PMState :=
  { capital := initial_capital, open_positions := [], trade_history := [] }

/-- `df.loc[:current_timestamp]` on a monotonically increasing index:
all bars with timestamp ≤ the cutoff, in order. -/
def dataSlice (df : List Bar) (t : Nat) : List Bar :=
  df.filter (fun b => b.ts ≤ t)

/-- `pd.Index.union` of two indexes: the sorted, deduplicated union. -/
def indexUnion (xs ys : List Nat) : List Nat :=
  List.insertionSort (· ≤ ·) ((xs ++ ys).dedup)

/-- The master clock of `Backtester.run`: start from the empty index and
union in each symbol's index in turn. -/
def masterIndex (historical : List (String × List Bar)) : List Nat :=
  historical.foldl (fun acc p => indexUnion acc (p.2.map (fun b => b.ts))) []

/-- Ghost trace entry: one call of `update_for_symbol`, with the symbol,
the current master-clock timestamp and the slice that was passed. -/
structure CallRecord where
  symbol : String
  timestamp : Nat
  dataSlice : List Bar
  deriving Repr, DecidableEq

/-- The inner loop of `Backtester.run` at one timestamp: for each symbol
in dict insertion order that has a bar at exactly this timestamp, pass the
point-in-time slice to `update_for_symbol`. Errors abort the run (the
source has no try/except here). The call trace is ghost output. -/
def runSymbols (cfg : PMConfig) (col : Collaborators) (t : Nat) :
    List (String × List Bar) → PMState →
    Except String (PMState × List CallRecord)
  | [], s => .ok (s, [])
  | (symbol, df) :: rest, s =>
    if df.any (fun b => b.ts == t) then
      match update_for_symbol cfg col s (dataSlice df t) symbol with
      | .error e => .error e
      | .ok s1 =>
        match runSymbols cfg col t rest s1 with
        | .error e => .error e
        | .ok (s2, recs) =>
          .ok (s2, { symbol := symbol, timestamp := t,
                     dataSlice := dataSlice df t } :: recs)
    else runSymbols cfg col t rest s

/-- The outer loop of `Backtester.run`: fold over the remaining master
timeline in increasing time order. -/
def runTimeline (cfg : PMConfig) (col : Collaborators)
    (historical : List (String × List Bar)) :
    List Nat → PMState → Except String (PMState × List CallRecord)
  | [], s => .ok (s, [])
  | t :: ts, s =>
    match runSymbols cfg col t historical s with
    | .error e => .error e
    | .ok (s1, recs) =>
      match runTimeline cfg col historical ts s1 with
      | .error e => .error e
      | .ok (s2, recs') => .ok (s2, recs ++ recs')

/-- `Backtester.run`: build the master index, skip the first
`min_data_points` entries (`range(min_data_points, len(master_index))`),
and fold the per-timestamp loop over the rest, starting from a fresh
portfolio state. Returns the final state plus the ghost call trace. -/
def backtestRun (cfg : PMConfig) (col : Collaborators)
    (historical : List (String × List Bar)) (initial_capital : ℚ)
    (min_data_points : Nat) : Except String (PMState × List CallRecord) :=
  runTimeline cfg col historical ((masterIndex historical).drop min_data_points)
    (initState initial_capital)

/-- Sum of the `pnl` column of the ledger. -/
def sumPnl (l : List ClosedTrade) : ℚ :=
  (l.map (fun tr => tr.pnl)).sum

theorem mem_indexUnion (xs ys : List Nat) (t : Nat) :
    t ∈ indexUnion xs ys ↔ t ∈ xs ∨ t ∈ ys := by
  rw [indexUnion, (List.perm_insertionSort _ _).mem_iff, List.mem_dedup, List.mem_append]

theorem nodup_indexUnion (xs ys : List Nat) :
    (indexUnion xs ys).Nodup :=
  ((List.perm_insertionSort _ _).nodup_iff).mpr (List.nodup_dedup _)

theorem sorted_indexUnion (xs ys : List Nat) :
    (indexUnion xs ys).Sorted (· < ·) :=
  (List.sorted_insertionSort _ _).lt_of_le (nodup_indexUnion xs ys)

theorem mem_masterFold (hist : List (String × List Bar)) (acc : List Nat) (t : Nat) :
    t ∈ hist.foldl (fun a p => indexUnion a (p.2.map (fun b => b.ts))) acc ↔
      t ∈ acc ∨ ∃ p ∈ hist, ∃ b ∈ p.2, b.ts = t := by
  induction hist generalizing acc with
  | nil => simp
  | cons p rest ih =>
    simp only [List.foldl_cons, ih, mem_indexUnion, List.mem_map, List.mem_cons]
    constructor
    · rintro ((h | ⟨b, hb, rfl⟩) | ⟨q, hq, b, hb, rfl⟩)
      · exact Or.inl h
      · exact Or.inr ⟨p, Or.inl rfl, b, hb, rfl⟩
      · exact Or.inr ⟨q, Or.inr hq, b, hb, rfl⟩
    · rintro (h | ⟨q, (rfl | hq), b, hb, rfl⟩)
      · exact Or.inl (Or.inl h)
      · exact Or.inl (Or.inr ⟨b, hb, rfl⟩)
      · exact Or.inr ⟨q, hq, b, hb, rfl⟩

theorem sorted_masterFold (hist : List (String × List Bar)) (acc : List Nat)
    (h : acc.Sorted (· < ·)) :
    (hist.foldl (fun a p => indexUnion a (p.2.map (fun b => b.ts))) acc).Sorted (· < ·) := by
  induction hist generalizing acc with
  | nil => exact h
  | cons p rest ih => exact ih _ (sorted_indexUnion _ _)

theorem nodup_masterFold (hist : List (String × List Bar)) (acc : List Nat)
    (h : acc.Nodup) :
    (hist.foldl (fun a p => indexUnion a (p.2.map (fun b => b.ts))) acc).Nodup := by
  induction hist generalizing acc with
  | nil => exact h
  | cons p rest ih => exact ih _ (nodup_indexUnion _ _)

/-- Timestamps 0..19 for the concrete overlap scenario of C5. -/
def demoTsA : List Nat := List.range 20

/-- Timestamps 10..29 for the concrete overlap scenario of C5: exactly
10 of them (10..19) also occur in `demoTsA`. -/
def demoTsB : List Nat := (List.range 20).map (fun i => 10 + i)

/-- A bar with the given timestamp and unit prices. -/
def demoBar (t : Nat) : Bar := ⟨t, 1, 1, 1, 1⟩

/-- Two symbols whose timestamp sets overlap in exactly 10 timestamps. -/
def demoOverlapHist : List (String × List Bar) :=
  [("A", demoTsA.map demoBar), ("B", demoTsB.map demoBar)]

/-- C5. Master timeline construction: the master timeline built by
`Backtester.run` is exactly the union of all symbols' timestamp sets —
a timestamp is on the timeline iff some symbol has a bar there — sorted
strictly ascending (hence deduplicated); and in the concrete two-symbol
scenario with exactly 10 overlapping timestamps, its length is
|A| + |B| − 10 (the union cardinality): 20 + 20 − 10 = 30, not the sum 40
and not either individual length 20. -/
theorem masterIndex_sorted_union :
    (∀ (historical : List (String × List Bar)) (t : Nat),
        t ∈ masterIndex historical ↔ ∃ p ∈ historical, ∃ b ∈ p.2, b.ts = t)
    ∧ (∀ historical, (masterIndex historical).Sorted (· < ·))
    ∧ (∀ historical, (masterIndex historical).Nodup)
    ∧ demoTsA.length = 20 ∧ demoTsB.length = 20
    ∧ (demoTsA.filter (fun t => demoTsB.contains t)).length = 10
    ∧ (masterIndex demoOverlapHist).length = demoTsA.length + demoTsB.length - 10 := by
  refine ⟨fun hist t => ?_, fun hist => sorted_masterFold hist [] (by simp),
    fun hist => nodup_masterFold hist [] (by simp), by decide, by decide, by decide, by decide⟩
  rw [masterIndex, mem_masterFold]
  simp

theorem runSymbols_records (cfg : PMConfig) (col : Collaborators) (t : Nat) :
    ∀ (hist : List (String × List Bar)) (s s' : PMState) (recs : List CallRecord),
      runSymbols cfg col t hist s = .ok (s', recs) →
      ∀ r ∈ recs, r.timestamp = t ∧
        ∃ p ∈ hist, r.symbol = p.1 ∧ r.dataSlice = dataSlice p.2 t := by
  intro hist
  induction hist with
  | nil =>
    intro s s' recs h r hr
    simp only [runSymbols, Except.ok.injEq, Prod.mk.injEq] at h
    rw [← h.2] at hr
    exact absurd hr (List.not_mem_nil r)
  | cons p rest ih =>
    obtain ⟨symbol, df⟩ := p
    intro s s' recs h r hr
    simp only [runSymbols] at h
    by_cases hmem : df.any (fun b => b.ts == t)
    · rw [if_pos hmem] at h
      cases hupd : update_for_symbol cfg col s (dataSlice df t) symbol with
      | error e => simp only [hupd] at h; exact absurd h (by simp)
      | ok s1 =>
        simp only [hupd] at h
        cases hrest : runSymbols cfg col t rest s1 with
        | error e => simp only [hrest] at h; exact absurd h (by simp)
        | ok pr =>
          obtain ⟨s2, recs2⟩ := pr
          simp only [hrest] at h
          simp only [Except.ok.injEq, Prod.mk.injEq] at h
          obtain ⟨-, hrecs⟩ := h
          rw [← hrecs] at hr
          rcases List.mem_cons.mp hr with rfl | hr'
          · exact ⟨rfl, (symbol, df), List.mem_cons_self _ _, rfl, rfl⟩
          · obtain ⟨ht, q, hq, hsym, hslice⟩ := ih s1 s2 recs2 hrest r hr'
            exact ⟨ht, q, List.mem_cons_of_mem _ hq, hsym, hslice⟩
    · rw [if_neg hmem] at h
      obtain ⟨ht, q, hq, hsym, hslice⟩ := ih s s' recs h r hr
      exact ⟨ht, q, List.mem_cons_of_mem _ hq, hsym, hslice⟩

theorem runTimeline_records (cfg : PMConfig) (col : Collaborators)
    (hist : List (String × List Bar)) :
    ∀ (ts : List Nat) (s s' : PMState) (recs : List CallRecord),
      runTimeline cfg col hist ts s = .ok (s', recs) →
      ∀ r ∈ recs, r.timestamp ∈ ts ∧
        ∃ p ∈ hist, r.symbol = p.1 ∧ r.dataSlice = dataSlice p.2 r.timestamp := by
  intro ts
  induction ts with
  | nil =>
    intro s s' recs h r hr
    simp only [runTimeline, Except.ok.injEq, Prod.mk.injEq] at h
    rw [← h.2] at hr
    exact absurd hr (List.not_mem_nil r)
  | cons t ts ih =>
    intro s s' recs h r hr
    simp only [runTimeline] at h
    cases hsym : runSymbols cfg col t hist s with
    | error e => simp only [hsym] at h; exact absurd h (by simp)
    | ok pr =>
      obtain ⟨s1, recs1⟩ := pr
      simp only [hsym] at h
      cases hrest : runTimeline cfg col hist ts s1 with
      | error e => simp only [hrest] at h; exact absurd h (by simp)
      | ok pr' =>
        obtain ⟨s2, recs2⟩ := pr'
        simp only [hrest] at h
        simp only [Except.ok.injEq, Prod.mk.injEq] at h
        obtain ⟨-, hrecs⟩ := h
        rw [← hrecs] at hr
        rcases List.mem_append.mp hr with hr1 | hr2
        · obtain ⟨ht, q, hq, hsym', hslice⟩ := runSymbols_records cfg col t hist s s1 recs1 hsym r hr1
          exact ⟨ht ▸ List.mem_cons_self _ _, q, hq, hsym', ht ▸ hslice⟩
        · obtain ⟨ht, rest'⟩ := ih s1 s2 recs2 hrest r hr2
          exact ⟨List.mem_cons_of_mem _ ht, rest'⟩

/-- C1. No look-ahead: in every successful run of `Backtester.run`, every
call passed to `PortfolioManager.update_for_symbol` happens at a
master-timeline timestamp from `min_data_points` onward, and the slice it
passes is exactly the bars of that symbol with timestamp ≤ that
timestamp — every bar of the slice has timestamp ≤ T, and a bar belongs
to the slice iff it belongs to the symbol's data and has timestamp ≤ T. -/
theorem backtest_no_lookahead (cfg : PMConfig) (col : Collaborators)
    (historical : List (String × List Bar)) (initial_capital : ℚ)
    (min_data_points : Nat) (s : PMState) (recs : List CallRecord)
    (h : backtestRun cfg col historical initial_capital min_data_points = .ok (s, recs)) :
    ∀ r ∈ recs,
      r.timestamp ∈ (masterIndex historical).drop min_data_points ∧
      (∀ b ∈ r.dataSlice, b.ts ≤ r.timestamp) ∧
      ∃ p ∈ historical, r.symbol = p.1 ∧
        r.dataSlice = p.2.filter (fun b => b.ts ≤ r.timestamp) ∧
        ∀ b : Bar, b ∈ r.dataSlice ↔ b ∈ p.2 ∧ b.ts ≤ r.timestamp := by
  intro r hr
  obtain ⟨ht, q, hq, hsym, hslice⟩ :=
    runTimeline_records cfg col historical _ _ s recs h r hr
  refine ⟨ht, ?_, q, hq, hsym, hslice, ?_⟩
  · intro b hb
    rw [hslice] at hb
    exact ((List.mem_filter.mp hb).2 : decide (b.ts ≤ r.timestamp) = true) |> of_decide_eq_true
  · intro b
    rw [hslice, dataSlice, List.mem_filter]
    simp

/-- A strategy that always returns HOLD, with a transparent indicator
engine: the simplest deterministic collaborators. -/
def holdCol : Collaborators :=
  { calculate_indicators := fun l => .ok l,
    check_signal := fun _ => .ok "HOLD",
    get_take_profit := none, middle_band := none }

/-- A small sample configuration: 1% risk per trade, at most 3 open
positions, stop at 1.5 ATR (the source's defaults). -/
def cfg0 : PMConfig :=
  { risk_per_trade_pct := 1 / 100, max_open_positions := 3,
    atr_multiplier_sl := 3 / 2 }

/-- Two bars of one symbol for concrete runs. -/
def wHist : List (String × List Bar) :=
  [("BTC", [⟨0, 10, 9, 10, 1⟩, ⟨1, 11, 10, 11, 1⟩])]

/-- The single call such a run makes: at timestamp 1, with both bars. -/
def wRec : CallRecord :=
  { symbol := "BTC", timestamp := 1,
    dataSlice := [⟨0, 10, 9, 10, 1⟩, ⟨1, 11, 10, 11, 1⟩] }

theorem backtest_no_lookahead_witness :
    backtestRun cfg0 holdCol wHist 10000 1 = .ok (initState 10000, [wRec]) ∧
    ∀ r ∈ [wRec],
      r.timestamp ∈ (masterIndex wHist).drop 1 ∧
      (∀ b ∈ r.dataSlice, b.ts ≤ r.timestamp) ∧
      ∃ p ∈ wHist, r.symbol = p.1 ∧
        r.dataSlice = p.2.filter (fun b => b.ts ≤ r.timestamp) ∧
        ∀ b : Bar, b ∈ r.dataSlice ↔ b ∈ p.2 ∧ b.ts ≤ r.timestamp :=
  ⟨rfl, backtest_no_lookahead cfg0 holdCol wHist 10000 1 (initState 10000) [wRec] rfl⟩

/-- The position-set invariant of the PortfolioManager: the number of open
positions is at most the ceiling, and the symbol keys are distinct (at
most one open position per symbol). -/
def PMInv (cfg : PMConfig) (s : PMState) : Prop :=
  s.open_positions.length ≤ cfg.max_open_positions ∧
  (s.open_positions.map Prod.fst).Nodup

theorem close_position_sublist (s : PMState) (symbol : String)
    (exit_price : ℚ) (reason : String) (exit_time : Nat) :
    (close_position s symbol exit_price reason exit_time).open_positions.Sublist
      s.open_positions := by
  rw [close_position]
  cases s.open_positions.find? (fun q => q.1 == symbol) with
  | none => exact List.Sublist.refl _
  | some q => exact List.filter_sublist _

theorem manage_open_position_sublist (s : PMState) (candle : Bar)
    (symbol : String) :
    (manage_open_position s candle symbol).open_positions.Sublist
      s.open_positions := by
  rw [manage_open_position]
  split
  · exact List.Sublist.refl _
  · split
    · split
      · exact close_position_sublist _ _ _ _ _
      · exact List.Sublist.refl _
    · exact List.Sublist.refl _

theorem check_new_entry_ok (cfg : PMConfig) (col : Collaborators)
    (s : PMState) (df : List Bar) (symbol : String) (s' : PMState)
    (h : check_new_entry cfg col s df symbol = .ok s') :
    (s' = s ∨ ∃ pos,
        s' = { s with open_positions := dictInsert s.open_positions symbol pos }) := by
  rw [check_new_entry] at h
  cases hs : col.check_signal df with
  | error e => simp only [hs] at h; exact absurd h (by simp)
  | ok signal =>
    simp only [hs] at h
    by_cases hsig : signal ≠ "BUY" ∧ signal ≠ "SELL"
    · rw [if_pos hsig] at h
      exact Or.inl (Except.ok.inj h).symm
    · rw [if_neg hsig] at h
      cases hlast : df.getLast? with
      | none => simp only [hlast] at h; exact absurd h (by simp)
      | some candle =>
        simp only [hlast] at h
        by_cases hsz : calculate_position_size s.capital cfg.risk_per_trade_pct
            candle.close (determine_initial_sl cfg.atr_multiplier_sl candle
              (if signal = "BUY" then "LONG" else "SHORT")) ≤ 0
        · rw [if_pos hsz] at h
          exact Or.inl (Except.ok.inj h).symm
        · rw [if_neg hsz] at h
          exact Or.inr ⟨_, (Except.ok.inj h).symm⟩

theorem dictInsert_of_key_absent (m : List (String × Position)) (k : String)
    (v : Position) (h : m.any (fun q => q.1 == k) = false) :
    dictInsert m k v = m ++ [(k, v)] := by
  rw [dictInsert, h]
  simp

theorem key_not_mem_of_any_false (m : List (String × Position)) (k : String)
    (h : m.any (fun q => q.1 == k) = false) : k ∉ m.map Prod.fst := by
  intro hk
  obtain ⟨q, hq, hfst⟩ := List.mem_map.mp hk
  have : m.any (fun q => q.1 == k) = true :=
    List.any_eq_true.mpr ⟨q, hq, beq_iff_eq.mpr hfst⟩
  rw [h] at this
  exact Bool.false_ne_true this

theorem update_for_symbol_preserves_inv (cfg : PMConfig) (col : Collaborators)
    (s : PMState) (df_slice : List Bar) (symbol : String) (s' : PMState)
    (hInv : PMInv cfg s)
    (h : update_for_symbol cfg col s df_slice symbol = .ok s') : PMInv cfg s' := by
  rw [update_for_symbol] at h
  cases hind : col.calculate_indicators df_slice with
  | error e => simp only [hind] at h; exact absurd h (by simp)
  | ok df =>
    simp only [hind] at h
    by_cases hin : s.open_positions.any (fun q => q.1 == symbol) = true
    · rw [if_pos hin] at h
      cases hlast : df.getLast? with
      | none => simp only [hlast] at h; exact absurd h (by simp)
      | some last =>
        simp only [hlast] at h
        have hs' : s' = manage_open_position s last symbol := (Except.ok.inj h).symm
        subst hs'
        exact ⟨le_trans (manage_open_position_sublist s last symbol).length_le hInv.1,
          hInv.2.sublist ((manage_open_position_sublist s last symbol).map Prod.fst)⟩
    · rw [if_neg hin] at h
      have hfalse : s.open_positions.any (fun q => q.1 == symbol) = false :=
        Bool.eq_false_iff.mpr hin
      by_cases hlen : s.open_positions.length < cfg.max_open_positions
      · rw [if_pos hlen] at h
        rcases check_new_entry_ok cfg col s df symbol s' h with rfl | ⟨pos, rfl⟩
        · exact hInv
        · rw [dictInsert_of_key_absent _ _ _ hfalse]
          constructor
          · simpa using hlen
          · simp only [List.map_append, List.map_cons, List.map_nil]
            rw [List.nodup_append]
            exact ⟨hInv.2, List.nodup_singleton _,
              by simpa using fun hk => key_not_mem_of_any_false _ _ hfalse hk⟩
      · rw [if_neg hlen] at h
        have hs' : s' = s := (Except.ok.inj h).symm
        subst hs'
        exact hInv

theorem runSymbols_preserves_inv (cfg : PMConfig) (col : Collaborators) (t : Nat) :
    ∀ (hist : List (String × List Bar)) (s s' : PMState) (recs : List CallRecord),
      PMInv cfg s → runSymbols cfg col t hist s = .ok (s', recs) → PMInv cfg s' := by
  intro hist
  induction hist with
  | nil =>
    intro s s' recs hInv h
    simp only [runSymbols, Except.ok.injEq, Prod.mk.injEq] at h
    exact h.1 ▸ hInv
  | cons p rest ih =>
    obtain ⟨symbol, df⟩ := p
    intro s s' recs hInv h
    simp only [runSymbols] at h
    by_cases hmem : df.any (fun b => b.ts == t)
    · rw [if_pos hmem] at h
      cases hupd : update_for_symbol cfg col s (dataSlice df t) symbol with
      | error e => simp only [hupd] at h; exact absurd h (by simp)
      | ok s1 =>
        simp only [hupd] at h
        cases hrest : runSymbols cfg col t rest s1 with
        | error e => simp only [hrest] at h; exact absurd h (by simp)
        | ok pr =>
          obtain ⟨s2, recs2⟩ := pr
          simp only [hrest, Except.ok.injEq, Prod.mk.injEq] at h
          exact h.1 ▸ ih s1 s2 recs2
            (update_for_symbol_preserves_inv cfg col s (dataSlice df t) symbol s1 hInv hupd)
            hrest
    · rw [if_neg hmem] at h
      exact ih s s' recs hInv h

theorem runTimeline_preserves_inv (cfg : PMConfig) (col : Collaborators)
    (hist : List (String × List Bar)) :
    ∀ (ts : List Nat) (s s' : PMState) (recs : List CallRecord),
      PMInv cfg s → runTimeline cfg col hist ts s = .ok (s', recs) → PMInv cfg s' := by
  intro ts
  induction ts with
  | nil =>
    intro s s' recs hInv h
    simp only [runTimeline, Except.ok.injEq, Prod.mk.injEq] at h
    exact h.1 ▸ hInv
  | cons t ts ih =>
    intro s s' recs hInv h
    simp only [runTimeline] at h
    cases hsym : runSymbols cfg col t hist s with
    | error e => simp only [hsym] at h; exact absurd h (by simp)
    | ok pr =>
      obtain ⟨s1, recs1⟩ := pr
      simp only [hsym] at h
      cases hrest : runTimeline cfg col hist ts s1 with
      | error e => simp only [hrest] at h; exact absurd h (by simp)
      | ok pr' =>
        obtain ⟨s2, recs2⟩ := pr'
        simp only [hrest, Except.ok.injEq, Prod.mk.injEq] at h
        exact h.1 ▸ ih s1 s2 recs2
          (runSymbols_preserves_inv cfg col t hist s s1 recs1 hInv hsym) hrest

theorem countP_key_le_one (m : List (String × Position))
    (h : (m.map Prod.fst).Nodup) (sym : String) :
    m.countP (fun q => q.1 == sym) ≤ 1 := by
  have h1 : (m.map Prod.fst).countP (fun k => k == sym) =
      m.countP (fun q => q.1 == sym) := List.countP_map _ _ _
  rw [← h1]
  exact List.nodup_iff_count_le_one.mp h sym

/-- C2. Position-set invariants: `update_for_symbol` preserves the
invariant that at most `max_open_positions` positions are open with
pairwise-distinct symbol keys; and at the end of every successful run the
open-position count is at most the ceiling, keys are distinct and every
symbol has at most one open position. -/
theorem position_set_invariants (cfg : PMConfig) (col : Collaborators) :
    (∀ (s : PMState) (df_slice : List Bar) (symbol : String) (s' : PMState),
        PMInv cfg s → update_for_symbol cfg col s df_slice symbol = .ok s' →
        PMInv cfg s')
    ∧ (∀ (historical : List (String × List Bar)) (initial_capital : ℚ)
        (min_data_points : Nat) (s : PMState) (recs : List CallRecord),
        backtestRun cfg col historical initial_capital min_data_points = .ok (s, recs) →
        s.open_positions.length ≤ cfg.max_open_positions ∧
        (s.open_positions.map Prod.fst).Nodup ∧
        ∀ sym : String, s.open_positions.countP (fun q => q.1 == sym) ≤ 1) := by
  refine ⟨update_for_symbol_preserves_inv cfg col, ?_⟩
  intro historical initial_capital min_data_points s recs h
  have hInv : PMInv cfg s :=
    runTimeline_preserves_inv cfg col historical _ _ s recs
      ⟨by simp [initState], by simp [initState]⟩ h
  exact ⟨hInv.1, hInv.2, fun sym => countP_key_le_one _ hInv.2 sym⟩

theorem position_set_invariants_witness :
    (PMInv cfg0 (initState 10000) ∧
      update_for_symbol cfg0 holdCol (initState 10000) [⟨0, 10, 9, 10, 1⟩] "A"
        = .ok (initState 10000)) ∧
    PMInv cfg0 (initState 10000) ∧
    backtestRun cfg0 holdCol wHist 10000 1 = .ok (initState 10000, [wRec]) ∧
    ((initState 10000).open_positions.length ≤ cfg0.max_open_positions ∧
      ((initState 10000).open_positions.map Prod.fst).Nodup ∧
      ∀ sym : String,
        (initState 10000).open_positions.countP (fun q => q.1 == sym) ≤ 1) := by
  have hInv : PMInv cfg0 (initState 10000) := ⟨by simp [initState], by simp [initState]⟩
  exact ⟨⟨hInv, rfl⟩,
    (position_set_invariants cfg0 holdCol).1 (initState 10000)
      [⟨0, 10, 9, 10, 1⟩] "A" (initState 10000) hInv rfl, rfl,
    (position_set_invariants cfg0 holdCol).2 wHist 10000 1
      (initState 10000) [wRec] rfl⟩

theorem sumPnl_append (l1 l2 : List ClosedTrade) :
    sumPnl (l1 ++ l2) = sumPnl l1 + sumPnl l2 := by
  simp [sumPnl]

theorem close_position_cap (s : PMState) (symbol : String) (exit_price : ℚ)
    (reason : String) (exit_time : Nat) :
    (close_position s symbol exit_price reason exit_time).capital
        + sumPnl s.trade_history =
      s.capital
        + sumPnl (close_position s symbol exit_price reason exit_time).trade_history := by
  rw [close_position]
  split
  · rfl
  · simp only [sumPnl_append, sumPnl, List.map_cons, List.map_nil, List.sum_cons,
      List.sum_nil, List.map_append, List.sum_append]
    ring

theorem manage_open_position_cap (s : PMState) (candle : Bar) (symbol : String) :
    (manage_open_position s candle symbol).capital + sumPnl s.trade_history =
      s.capital + sumPnl (manage_open_position s candle symbol).trade_history := by
  rw [manage_open_position]
  split
  · rfl
  · split
    · split
      · exact close_position_cap _ _ _ _ _
      · rfl
    · rfl

theorem check_new_entry_cap (cfg : PMConfig) (col : Collaborators) (s : PMState)
    (df : List Bar) (symbol : String) (s' : PMState)
    (h : check_new_entry cfg col s df symbol = .ok s') :
    s'.capital = s.capital ∧ s'.trade_history = s.trade_history := by
  rcases check_new_entry_ok cfg col s df symbol s' h with rfl | ⟨pos, rfl⟩ <;>
    exact ⟨rfl, rfl⟩

theorem update_for_symbol_cap (cfg : PMConfig) (col : Collaborators) (s : PMState)
    (df_slice : List Bar) (symbol : String) (s' : PMState)
    (h : update_for_symbol cfg col s df_slice symbol = .ok s') :
    s'.capital + sumPnl s.trade_history = s.capital + sumPnl s'.trade_history := by
  rw [update_for_symbol] at h
  cases hind : col.calculate_indicators df_slice with
  | error e => simp only [hind] at h; exact absurd h (by simp)
  | ok df =>
    simp only [hind] at h
    by_cases hin : s.open_positions.any (fun q => q.1 == symbol) = true
    · rw [if_pos hin] at h
      cases hlast : df.getLast? with
      | none => simp only [hlast] at h; exact absurd h (by simp)
      | some last =>
        simp only [hlast] at h
        have hs' : s' = manage_open_position s last symbol := (Except.ok.inj h).symm
        subst hs'
        exact manage_open_position_cap s last symbol
    · rw [if_neg hin] at h
      by_cases hlen : s.open_positions.length < cfg.max_open_positions
      · rw [if_pos hlen] at h
        obtain ⟨hc, ht⟩ := check_new_entry_cap cfg col s df symbol s' h
        rw [hc, ht]
      · rw [if_neg hlen] at h
        have hs' : s' = s := (Except.ok.inj h).symm
        subst hs'
        rfl

theorem runSymbols_cap (cfg : PMConfig) (col : Collaborators) (t : Nat) :
    ∀ (hist : List (String × List Bar)) (s s' : PMState) (recs : List CallRecord),
      runSymbols cfg col t hist s = .ok (s', recs) →
      s'.capital + sumPnl s.trade_history = s.capital + sumPnl s'.trade_history := by
  intro hist
  induction hist with
  | nil =>
    intro s s' recs h
    simp only [runSymbols, Except.ok.injEq, Prod.mk.injEq] at h
    rw [← h.1]
  | cons p rest ih =>
    obtain ⟨symbol, df⟩ := p
    intro s s' recs h
    simp only [runSymbols] at h
    by_cases hmem : df.any (fun b => b.ts == t)
    · rw [if_pos hmem] at h
      cases hupd : update_for_symbol cfg col s (dataSlice df t) symbol with
      | error e => simp only [hupd] at h; exact absurd h (by simp)
      | ok s1 =>
        simp only [hupd] at h
        cases hrest : runSymbols cfg col t rest s1 with
        | error e => simp only [hrest] at h; exact absurd h (by simp)
        | ok pr =>
          obtain ⟨s2, recs2⟩ := pr
          simp only [hrest, Except.ok.injEq, Prod.mk.injEq] at h
          have h1 := update_for_symbol_cap cfg col s (dataSlice df t) symbol s1 hupd
          have h2 := ih s1 s2 recs2 hrest
          rw [← h.1] at *
          linarith
    · rw [if_neg hmem] at h
      exact ih s s' recs h

theorem runTimeline_cap (cfg : PMConfig) (col : Collaborators)
    (hist : List (String × List Bar)) :
    ∀ (ts : List Nat) (s s' : PMState) (recs : List CallRecord),
      runTimeline cfg col hist ts s = .ok (s', recs) →
      s'.capital + sumPnl s.trade_history = s.capital + sumPnl s'.trade_history := by
  intro ts
  induction ts with
  | nil =>
    intro s s' recs h
    simp only [runTimeline, Except.ok.injEq, Prod.mk.injEq] at h
    rw [← h.1]
  | cons t ts ih =>
    intro s s' recs h
    simp only [runTimeline] at h
    cases hsym : runSymbols cfg col t hist s with
    | error e => simp only [hsym] at h; exact absurd h (by simp)
    | ok pr =>
      obtain ⟨s1, recs1⟩ := pr
      simp only [hsym] at h
      cases hrest : runTimeline cfg col hist ts s1 with
      | error e => simp only [hrest] at h; exact absurd h (by simp)
      | ok pr' =>
        obtain ⟨s2, recs2⟩ := pr'
        simp only [hrest, Except.ok.injEq, Prod.mk.injEq] at h
        have h1 := runSymbols_cap cfg col t hist s s1 recs1 hsym
        have h2 := ih s1 s2 recs2 hrest
        rw [← h.1] at *
        linarith

/-- C3. Capital conservation: on every close of a live position the pnl
is `(exit − entry) × size × (+1 for LONG, −1 for SHORT)`, the new capital
is the old capital plus exactly that pnl, and one ClosedTrade carrying
that pnl is appended to the ledger; and after any successful run, the sum
of all pnl values in the ledger equals final capital minus initial
capital. -/
theorem capital_conservation :
    (∀ (s : PMState) (symbol : String) (pos : Position) (exit_price : ℚ)
        (reason : String) (exit_time : Nat),
        s.open_positions.find? (fun q => q.1 == symbol) = some (symbol, pos) →
        close_position s symbol exit_price reason exit_time =
          { capital := s.capital + (exit_price - pos.entry_price) * pos.size *
              (if pos.direction = "LONG" then 1 else -1),
            open_positions := s.open_positions.filter (fun q => ¬ q.1 == symbol),
            trade_history := s.trade_history ++
              [{ entry_time := pos.entry_time, entry_price := pos.entry_price,
                 size := pos.size, stop_loss := pos.stop_loss,
                 take_profit := pos.take_profit, direction := pos.direction,
                 pnl := (exit_price - pos.entry_price) * pos.size *
                   (if pos.direction = "LONG" then 1 else -1),
                 exit_reason := reason, exit_time := exit_time,
                 symbol := symbol }] })
    ∧ (∀ (cfg : PMConfig) (col : Collaborators)
        (historical : List (String × List Bar)) (initial_capital : ℚ)
        (min_data_points : Nat) (s : PMState) (recs : List CallRecord),
        backtestRun cfg col historical initial_capital min_data_points = .ok (s, recs) →
        sumPnl s.trade_history = s.capital - initial_capital) := by
  constructor
  · intro s symbol pos exit_price reason exit_time hfind
    rw [close_position, hfind]
  · intro cfg col historical initial_capital min_data_points s recs h
    have := runTimeline_cap cfg col historical _ _ s recs h
    have h0 : sumPnl (initState initial_capital).trade_history = 0 := rfl
    have h1 : (initState initial_capital).capital = initial_capital := rfl
    rw [h0, h1] at this
    linarith

/-- A strategy that always signals BUY, with a transparent indicator
engine. -/
def buyCol : Collaborators :=
  { calculate_indicators := fun l => .ok l,
    check_signal := fun _ => .ok "BUY",
    get_take_profit := none, middle_band := none }

/-- A live LONG position used to exercise `close_position` directly. -/
def pos1 : Position := ⟨0, 10, 1, 8, 12, "LONG"⟩

/-- A state holding `pos1` under symbol X. -/
def closeSt : PMState := ⟨100, [("X", pos1)], []⟩

theorem capital_conservation_witness :
    (closeSt.open_positions.find? (fun q => q.1 == "X") = some ("X", pos1) ∧
      close_position closeSt "X" 9 "STOP_LOSS" 5 =
        { capital := closeSt.capital + (9 - pos1.entry_price) * pos1.size *
            (if pos1.direction = "LONG" then 1 else -1),
          open_positions := closeSt.open_positions.filter (fun q => ¬ q.1 == "X"),
          trade_history := closeSt.trade_history ++
            [{ entry_time := pos1.entry_time, entry_price := pos1.entry_price,
               size := pos1.size, stop_loss := pos1.stop_loss,
               take_profit := pos1.take_profit, direction := pos1.direction,
               pnl := (9 - pos1.entry_price) * pos1.size *
                 (if pos1.direction = "LONG" then 1 else -1),
               exit_reason := "STOP_LOSS", exit_time := 5, symbol := "X" }] })
    ∧ (backtestRun cfg0 holdCol wHist 10000 1 = .ok (initState 10000, [wRec]) ∧
      sumPnl (initState 10000).trade_history = (initState 10000).capital - 10000) :=
  ⟨⟨rfl, capital_conservation.1 closeSt "X" pos1 9 "STOP_LOSS" 5 rfl⟩,
    ⟨rfl, capital_conservation.2 cfg0 holdCol wHist 10000 1 (initState 10000) [wRec] rfl⟩⟩

/-- A LONG position whose stop-loss level is exactly 0: the truthiness
guard of `_manage_open_position` can never fire it. -/
def ambigPos : Position := ⟨0, 10, 1, 0, 5, "LONG"⟩

/-- A state holding `ambigPos` under symbol X. -/
def ambigSt : PMState := ⟨100, [("X", ambigPos)], []⟩

/-- A bar that touches both the stop (Low ≤ 0) and the target
(High ≥ 5) of `ambigPos` on the same bar. -/
def ambigBar : Bar := ⟨1, 10, 0, 3, 1⟩

/-- C4, counterexample: a LONG position whose bar satisfies both
`Low ≤ stop_loss` and `High ≥ take_profit` is NOT closed when the
stop-loss level is 0 — the truthiness guard `if exit_price and reason:`
rejects the 0.0 exit price, so the position stays open and the ledger
stays empty, contradicting the claim that every such position is closed
with STOP_LOSS. -/
theorem stop_precedes_target_counterexample :
    ambigPos.direction = "LONG" ∧
    ambigBar.low ≤ ambigPos.stop_loss ∧ ambigPos.take_profit ≤ ambigBar.high ∧
    manage_open_position ambigSt ambigBar "X" = ambigSt ∧
    ("X", ambigPos) ∈ (manage_open_position ambigSt ambigBar "X").open_positions ∧
    (manage_open_position ambigSt ambigBar "X").trade_history = [] := by
  refine ⟨rfl, by decide, by decide, rfl, by decide, rfl⟩

/-- C4, amended. Stop-loss precedes take-profit on ambiguous bars,
provided the stop-loss level is nonzero (the close guard tests the
truthiness of the exit price): for a live LONG position whose bar has
Low ≤ stop_loss and High ≥ take_profit simultaneously, the exit is a
close with reason STOP_LOSS at exit price equal to the stop-loss level
(not the bar's Low); symmetrically for SHORT with High ≥ stop_loss and
Low ≤ take_profit. -/
theorem stop_precedes_target (s : PMState) (symbol : String) (pos : Position)
    (candle : Bar)
    (hfind : s.open_positions.find? (fun q => q.1 == symbol) = some (symbol, pos)) :
    (pos.direction = "LONG" → candle.low ≤ pos.stop_loss →
      pos.take_profit ≤ candle.high → pos.stop_loss ≠ 0 →
      manage_open_position s candle symbol =
        close_position s symbol pos.stop_loss "STOP_LOSS" candle.ts)
    ∧ (pos.direction = "SHORT" → pos.stop_loss ≤ candle.high →
      candle.low ≤ pos.take_profit → pos.stop_loss ≠ 0 →
      manage_open_position s candle symbol =
        close_position s symbol pos.stop_loss "STOP_LOSS" candle.ts) := by
  constructor
  · intro hdir hlow _htp hz
    have hdec : exitDecision pos candle.high candle.low =
        some (pos.stop_loss, "STOP_LOSS") := by
      rw [exitDecision, if_pos hdir, if_pos hlow]
    simp only [manage_open_position, hfind, hdec]
    rw [if_pos hz]
  · intro hdir hhigh _hlow hz
    have hne : pos.direction ≠ "LONG" := by rw [hdir]; decide
    have hdec : exitDecision pos candle.high candle.low =
        some (pos.stop_loss, "STOP_LOSS") := by
      rw [exitDecision, if_neg hne, if_pos hdir, if_pos hhigh]
    simp only [manage_open_position, hfind, hdec]
    rw [if_pos hz]

/-- A bar hitting both levels of `pos1` (Low 7 ≤ stop 8, High 13 ≥
target 12) with a nonzero stop. -/
def c4bar : Bar := ⟨5, 13, 7, 9, 2⟩

theorem stop_precedes_target_witness :
    (closeSt.open_positions.find? (fun q => q.1 == "X") = some ("X", pos1) ∧
      pos1.direction = "LONG" ∧ c4bar.low ≤ pos1.stop_loss ∧
      pos1.take_profit ≤ c4bar.high ∧ pos1.stop_loss ≠ 0) ∧
    manage_open_position closeSt c4bar "X" =
      close_position closeSt "X" pos1.stop_loss "STOP_LOSS" c4bar.ts :=
  ⟨⟨rfl, rfl, by decide, by decide, by decide⟩,
    (stop_precedes_target closeSt "X" pos1 c4bar rfl).1 rfl (by decide)
      (by decide) (by decide)⟩

/-- C10. Zero-price exit levels are never acted on: when the exit
decision of `_manage_open_position` fires at level exactly 0, the
truthiness guard `if exit_price and reason:` is false, so no close
occurs — the state (open positions, capital and ledger) is unchanged.
In particular a live LONG position with stop_loss = 0 on a bar with
Low ≤ 0, and a live SHORT position with take_profit = 0 on a bar with
High < stop_loss and Low ≤ 0, stay open even though their exit
condition held on that bar. -/
theorem zero_exit_level_ignored (s : PMState) (symbol : String) (pos : Position)
    (candle : Bar)
    (hfind : s.open_positions.find? (fun q => q.1 == symbol) = some (symbol, pos)) :
    (∀ r : String, exitDecision pos candle.high candle.low = some (0, r) →
      manage_open_position s candle symbol = s)
    ∧ (pos.direction = "LONG" → pos.stop_loss = 0 → candle.low ≤ 0 →
      manage_open_position s candle symbol = s)
    ∧ (pos.direction = "SHORT" → pos.take_profit = 0 → candle.high < pos.stop_loss →
      candle.low ≤ 0 → manage_open_position s candle symbol = s) := by
  have base : ∀ r : String, exitDecision pos candle.high candle.low = some (0, r) →
      manage_open_position s candle symbol = s := by
    intro r hdec
    simp only [manage_open_position, hfind, hdec]
    simp
  refine ⟨base, ?_, ?_⟩
  · intro hdir hsl hlow
    apply base "STOP_LOSS"
    rw [exitDecision, if_pos hdir, if_pos (hsl ▸ hlow), hsl]
  · intro hdir htp hhigh hlow
    apply base "TAKE_PROFIT"
    have hne : pos.direction ≠ "LONG" := by rw [hdir]; decide
    rw [exitDecision, if_neg hne, if_pos hdir, if_neg (not_le.mpr hhigh),
      if_pos (htp ▸ hlow), htp]

theorem zero_exit_level_ignored_witness :
    (ambigSt.open_positions.find? (fun q => q.1 == "X") = some ("X", ambigPos) ∧
      ambigPos.direction = "LONG" ∧ ambigPos.stop_loss = 0 ∧ ambigBar.low ≤ 0) ∧
    manage_open_position ambigSt ambigBar "X" = ambigSt :=
  ⟨⟨rfl, rfl, rfl, by decide⟩,
    (zero_exit_level_ignored ambigSt "X" ambigPos ambigBar rfl).2.1 rfl rfl (by decide)⟩

/-- C6. Degenerate-size rejection: `calculate_position_size` returns
`capital × risk / |entry − stop|` when the distance is positive and 0
when it is ≤ 0; and an entry signal whose computed size is ≤ 0 (in
particular a stop equal to the entry price) opens no position and raises
no error — the state comes back unchanged. -/
theorem degenerate_size_rejection :
    (∀ balance pct entry sl : ℚ,
        (0 < |entry - sl| →
          calculate_position_size balance pct entry sl = balance * pct / |entry - sl|)
        ∧ (|entry - sl| ≤ 0 → calculate_position_size balance pct entry sl = 0))
    ∧ (∀ (cfg : PMConfig) (col : Collaborators) (s : PMState)
        (df_slice df : List Bar) (symbol sig : String) (candle : Bar),
        col.calculate_indicators df_slice = .ok df →
        s.open_positions.any (fun q => q.1 == symbol) = false →
        s.open_positions.length < cfg.max_open_positions →
        col.check_signal df = .ok sig →
        (sig = "BUY" ∨ sig = "SELL") →
        df.getLast? = some candle →
        calculate_position_size s.capital cfg.risk_per_trade_pct candle.close
          (determine_initial_sl cfg.atr_multiplier_sl candle
            (if sig = "BUY" then "LONG" else "SHORT")) ≤ 0 →
        update_for_symbol cfg col s df_slice symbol = .ok s) := by
  constructor
  · intro balance pct entry sl
    constructor
    · intro h
      simp only [calculate_position_size]
      rw [if_neg (not_le.mpr h)]
    · intro h
      simp only [calculate_position_size]
      rw [if_pos h]
  · intro cfg col s df_slice df symbol sig candle hind hany hlen hsig hbs hlast hsz
    have hnot : ¬ (sig ≠ "BUY" ∧ sig ≠ "SELL") := by
      rcases hbs with h | h
      · exact fun hc => hc.1 h
      · exact fun hc => hc.2 h
    simp only [update_for_symbol, hind, hany, Bool.false_eq_true, if_false]
    rw [if_pos hlen]
    simp only [check_new_entry, hsig]
    rw [if_neg hnot]
    simp only [hlast]
    rw [if_pos hsz]

/-- A bar with ATR 0: the computed stop equals the entry, so the
position size degenerates to 0. -/
def c6bar : Bar := ⟨0, 10, 9, 10, 0⟩

theorem degenerate_size_rejection_witness :
    ((0 : ℚ) < |10 - 7| ∧ calculate_position_size 100 (1 / 100) 10 7 = 100 * (1 / 100) / |10 - 7|) ∧
    (buyCol.calculate_indicators [c6bar] = .ok [c6bar] ∧
      (initState 100).open_positions.any (fun q => q.1 == "A") = false ∧
      (initState 100).open_positions.length < cfg0.max_open_positions ∧
      buyCol.check_signal [c6bar] = .ok "BUY" ∧
      (("BUY" : String) = "BUY" ∨ ("BUY" : String) = "SELL") ∧
      [c6bar].getLast? = some c6bar ∧
      calculate_position_size (initState 100).capital cfg0.risk_per_trade_pct
        c6bar.close (determine_initial_sl cfg0.atr_multiplier_sl c6bar
          (if ("BUY" : String) = "BUY" then "LONG" else "SHORT")) ≤ 0) ∧
    update_for_symbol cfg0 buyCol (initState 100) [c6bar] "A" = .ok (initState 100) := by
  have hsz : calculate_position_size (initState 100).capital cfg0.risk_per_trade_pct
      c6bar.close (determine_initial_sl cfg0.atr_multiplier_sl c6bar
        (if ("BUY" : String) = "BUY" then "LONG" else "SHORT")) ≤ 0 := by
    simp [calculate_position_size, determine_initial_sl, c6bar, cfg0, initState]
  refine ⟨⟨by norm_num, (degenerate_size_rejection.1 100 (1 / 100) 10 7).1 (by norm_num)⟩,
    ⟨rfl, rfl, by decide, rfl, Or.inl rfl, rfl, hsz⟩,
    degenerate_size_rejection.2 cfg0 buyCol (initState 100) [c6bar] [c6bar] "A" "BUY"
      c6bar rfl rfl (by decide) rfl (Or.inl rfl) rfl hsz⟩

/-- C7. Deterministic re-run: `Backtester.run` is a pure function of the
input mapping (in insertion order), the initial capital and the warm-up
length — two invocations on equal inputs return equal results, in
particular identical trade ledgers and identical call traces. -/
theorem deterministic_rerun (cfg : PMConfig) (col : Collaborators)
    (h1 h2 : List (String × List Bar)) (c1 c2 : ℚ) (m1 m2 : Nat)
    (hh : h1 = h2) (hc : c1 = c2) (hm : m1 = m2) :
    backtestRun cfg col h1 c1 m1 = backtestRun cfg col h2 c2 m2 ∧
    ∀ (s s' : PMState) (recs recs' : List CallRecord),
      backtestRun cfg col h1 c1 m1 = .ok (s, recs) →
      backtestRun cfg col h2 c2 m2 = .ok (s', recs') →
      s.trade_history = s'.trade_history ∧ recs = recs' := by
  subst hh; subst hc; subst hm
  refine ⟨rfl, ?_⟩
  intro s s' recs recs' e1 e2
  have h' : (s, recs) = (s', recs') := Except.ok.inj (e1.symm.trans e2)
  have hs : s = s' := congrArg Prod.fst h'
  have hr : recs = recs' := congrArg Prod.snd h'
  exact ⟨by rw [hs], hr⟩

theorem deterministic_rerun_witness :
    (wHist = wHist ∧ (10000 : ℚ) = 10000 ∧ (1 : Nat) = 1) ∧
    (backtestRun cfg0 holdCol wHist 10000 1 = backtestRun cfg0 holdCol wHist 10000 1 ∧
      ∀ (s s' : PMState) (recs recs' : List CallRecord),
        backtestRun cfg0 holdCol wHist 10000 1 = .ok (s, recs) →
        backtestRun cfg0 holdCol wHist 10000 1 = .ok (s', recs') →
        s.trade_history = s'.trade_history ∧ recs = recs') :=
  ⟨⟨rfl, rfl, rfl⟩,
    deterministic_rerun cfg0 holdCol wHist wHist 10000 10000 1 1 rfl rfl rfl⟩

/-- A strategy whose `check_signal` raises on every call, with a
transparent indicator engine. -/
def throwingCol : Collaborators :=
  { calculate_indicators := fun l => .ok l,
    check_signal := fun _ => .error "strategy boom",
    get_take_profit := none, middle_band := none }

/-- C8. Strategy-failure containment fails in the code: there is no
try/except around `strategy.check_signal` (or the indicator call) in
`PortfolioManager.update_for_symbol`, so an exception raised by the
strategy propagates out of `update_for_symbol` and aborts the whole
`Backtester.run` instead of being caught, logged and treated as HOLD. -/
theorem strategy_error_aborts_run :
    throwingCol.check_signal [⟨0, 10, 9, 10, 1⟩] = .error "strategy boom" ∧
    update_for_symbol cfg0 throwingCol (initState 10000) [⟨0, 10, 9, 10, 1⟩] "BTC"
      = .error "strategy boom" ∧
    backtestRun cfg0 throwingCol [("BTC", [⟨0, 10, 9, 10, 1⟩])] 10000 0
      = .error "strategy boom" :=
  ⟨rfl, rfl, rfl⟩

/-- C9. Fatal startup on empty data fails in the code: `Backtester.run`
performs no emptiness check — with an empty symbol mapping, or a symbol
with zero bars, the master timeline is empty, the simulation loop runs
zero steps, and the run completes normally with an unchanged portfolio
state and an empty ledger, instead of signalling an error. -/
theorem empty_data_completes_silently :
    masterIndex [] = [] ∧
    masterIndex [("BTC", [])] = [] ∧
    backtestRun cfg0 holdCol [] 10000 200 = .ok (initState 10000, []) ∧
    backtestRun cfg0 holdCol [("BTC", [])] 10000 200 = .ok (initState 10000, []) ∧
    (initState 10000).trade_history = [] :=
  ⟨rfl, rfl, rfl, rfl, rfl⟩
